import Mathlib

/-!
Shallow embedding of `clu/deterministic_data.py` (CommonLoopUtils).

The Python module has three pieces of substantive logic:

* `get_read_instruction_for_host`: splits `num_examples` examples across
  `host_count` hosts, giving each host a contiguous half-open index range.
* `create_dataset`: assembles the input pipeline (missing-seed check,
  filtering, repeating, shuffling, preprocessing, padding to a fixed number
  of batches, batching with `drop_remainder=True`).
* `_preprocess_with_per_example_rng`: maps a preprocessing function over an
  enumerated dataset, injecting a per-example "rng" feature obtained by
  folding the example index (cast from int64 to int32 by the code) into a
  base seed.

Python integers are modelled as `Int` (Python `//` is floor division, hence
`Int.fdiv`).  Datasets are modelled as finite lists; external collaborators
(the TF shuffle implementation, `jax.random.split`, the stateless fold) are
abstract function parameters, since they live outside this repository.
Python `raise`/`assert` failures are modelled with `Except`.
-/

/-- Error outcomes of `get_read_instruction_for_host`:
`invalidTopology` models the `ValueError` raised for a bad
`host_id`/`host_count` combination, `assertionFailed` models a failure of
either of the two `assert` statements about `num_unused_examples`. -/
inductive ShardError where
  | invalidTopology
  | assertionFailed
deriving DecidableEq, Repr

/-- Model of `tfds.core.ReadInstruction(split, from_=start, to=end, unit="abs")`. -/
structure ReadInstruction where
  splitName : String
  from_ : Int
  to_ : Int
  unit : String
deriving DecidableEq, Repr

instance {ε α : Type} [DecidableEq ε] [DecidableEq α] :
    DecidableEq (Except ε α) := fun x y =>
  match x, y with
  | .error a, .error b =>
      if h : a = b then .isTrue (by rw [h])
      else .isFalse (by simp [Except.error.injEq, h])
  | .error _, .ok _ => .isFalse (by simp)
  | .ok _, .error _ => .isFalse (by simp)
  | .ok a, .ok b =>
      if h : a = b then .isTrue (by rw [h])
      else .isFalse (by simp [Except.ok.injEq, h])

/-- Embedding of `get_read_instruction_for_host` (deterministic_data.py,
lines 111-133) with `host_id` and `host_count` passed explicitly.
Mirrors the Python control flow: the topology check raising `ValueError`,
floor division (`//` is `Int.fdiv`), the two `assert` statements, and the
remainder redistribution when `drop_remainder` is false. -/
def get_read_instruction_for_host (split : String) (num_examples : Int)
    (host_id : Int) (host_count : Int) (drop_remainder : Bool) :
    Except ShardError ReadInstruction :=
  if host_id < 0 ∨ host_id ≥ host_count ∨ host_count < 1 then
    .error .invalidTopology
  else
    let examples_per_host := Int.fdiv num_examples host_count
    let start := examples_per_host * host_id
    let stop := examples_per_host * (host_id + 1)
    let num_unused_examples := num_examples - examples_per_host * host_count
    if ¬ (num_unused_examples ≥ 0) then .error .assertionFailed
    else if ¬ (num_unused_examples < host_count) then .error .assertionFailed
    else if num_unused_examples > 0 ∧ ¬ drop_remainder then
      .ok ⟨split, start + min host_id num_unused_examples,
           stop + min (host_id + 1) num_unused_examples, "abs"⟩
    else
      .ok ⟨split, start, stop, "abs"⟩

/-- Embedding of `get_read_instruction_for_host` including its optional
parameters: in the Python source `host_id` and `host_count` default to the
ambient values `jax.host_id()` / `jax.host_count()` (lines 107-110) when the
caller passes `None`.  The ambient process-global values are explicit model
state `jax_host_id` / `jax_host_count`. -/
def get_read_instruction_for_host_opt (split : String) (num_examples : Int)
    (host_id? : Option Int) (host_count? : Option Int)
    (drop_remainder : Bool) (jax_host_id : Int) (jax_host_count : Int) :
    Except ShardError ReadInstruction :=
  get_read_instruction_for_host split num_examples
    (host_id?.getD jax_host_id) (host_count?.getD jax_host_count) drop_remainder

/-- Start of the range produced for `host_id` when `drop_remainder=False`:
`examples_per_host * host_id + min host_id r` where
`r = num_examples - examples_per_host * host_count`. -/
def shardStart (num_examples host_count host_id : Int) : Int :=
  let examples_per_host := Int.fdiv num_examples host_count
  let r := num_examples - examples_per_host * host_count
  examples_per_host * host_id + min host_id r

/-- End of the range produced for `host_id` when `drop_remainder=False`;
note `shardEnd n hc h = shardStart n hc (h + 1)` definitionally, which gives
contiguity of consecutive host ranges. -/
def shardEnd (num_examples host_count host_id : Int) : Int :=
  shardStart num_examples host_count (host_id + 1)

example :
    get_read_instruction_for_host "train" 10 0 3 false =
      .ok ⟨"train", 0, 4, "abs"⟩ := by decide

example :
    get_read_instruction_for_host "train" 10 1 3 false =
      .ok ⟨"train", 4, 7, "abs"⟩ := by decide

example :
    get_read_instruction_for_host "train" 10 2 3 false =
      .ok ⟨"train", 7, 10, "abs"⟩ := by decide

example :
    get_read_instruction_for_host "train" 10 2 3 true =
      .ok ⟨"train", 6, 9, "abs"⟩ := by decide

example :
    get_read_instruction_for_host "train" 10 3 3 true =
      .error .invalidTopology := by decide

/-- The remainder `num_unused_examples = n - (n // hc) * hc` lies in `[0, hc)`
whenever `0 ≤ n` and `1 ≤ hc`. -/
lemma shard_r_bounds (n hc : Int) (hn : 0 ≤ n) (hc1 : 1 ≤ hc) :
    0 ≤ n - Int.fdiv n hc * hc ∧ n - Int.fdiv n hc * hc < hc := by
  have hfd : Int.fdiv n hc = n / hc := Int.fdiv_eq_ediv n (by omega)
  have hkey : n - Int.fdiv n hc * hc = n % hc := by
    rw [hfd, Int.emod_def]; ring
  have h2 : 0 ≤ n % hc := Int.emod_nonneg n (by omega)
  have h3 : n % hc < hc := Int.emod_lt_of_pos n (by omega)
  omega

/-- Under a valid topology and `drop_remainder = false`, the function returns
`.ok` with range `[shardStart, shardEnd)`. -/
lemma get_read_no_drop_eq (s : String) (n hc h : Int)
    (hn : 0 ≤ n) (h0 : 0 ≤ h) (hlt : h < hc) :
    get_read_instruction_for_host s n h hc false =
      .ok ⟨s, shardStart n hc h, shardEnd n hc h, "abs"⟩ := by
  have hc1 : 1 ≤ hc := by omega
  obtain ⟨hr0, hrlt⟩ := shard_r_bounds n hc hn hc1
  simp only [get_read_instruction_for_host, shardStart, shardEnd]
  rw [if_neg (show ¬(h < 0 ∨ h ≥ hc ∨ hc < 1) by omega)]
  rw [if_neg (not_not_intro hr0)]
  rw [if_neg (not_not_intro hrlt)]
  by_cases hpos : n - Int.fdiv n hc * hc > 0
  · rw [if_pos ⟨hpos, by simp⟩]
  · rw [if_neg (fun hcontra => hpos hcontra.1)]
    have hr : n - Int.fdiv n hc * hc = 0 := by omega
    simp only [Except.ok.injEq, ReadInstruction.mk.injEq, true_and, and_true]
    constructor <;> · rw [hr]; omega

/-- Under a valid topology and `drop_remainder = true`, the function returns
the unmodified base range. -/
lemma get_read_drop_eq (s : String) (n hc h : Int)
    (hn : 0 ≤ n) (h0 : 0 ≤ h) (hlt : h < hc) :
    get_read_instruction_for_host s n h hc true =
      .ok ⟨s, Int.fdiv n hc * h, Int.fdiv n hc * (h + 1), "abs"⟩ := by
  have hc1 : 1 ≤ hc := by omega
  obtain ⟨hr0, hrlt⟩ := shard_r_bounds n hc hn hc1
  simp only [get_read_instruction_for_host]
  rw [if_neg (show ¬(h < 0 ∨ h ≥ hc ∨ hc < 1) by omega)]
  rw [if_neg (not_not_intro hr0)]
  rw [if_neg (not_not_intro hrlt)]
  rw [if_neg (show ¬(n - Int.fdiv n hc * hc > 0 ∧ ¬True) by simp)]

lemma shardStart_mono (n hc : Int) (hn : 0 ≤ n) (hc1 : 1 ≤ hc)
    {h h' : Int} (hh : h ≤ h') :
    shardStart n hc h ≤ shardStart n hc h' := by
  simp only [shardStart]
  have hq0 : 0 ≤ Int.fdiv n hc := Int.fdiv_nonneg hn (by omega)
  exact add_le_add (mul_le_mul_of_nonneg_left hh hq0) (min_le_min hh le_rfl)

lemma shardStart_zero (n hc : Int) (hn : 0 ≤ n) (hc1 : 1 ≤ hc) :
    shardStart n hc 0 = 0 := by
  obtain ⟨hr0, hrlt⟩ := shard_r_bounds n hc hn hc1
  simp only [shardStart]
  set r := n - Int.fdiv n hc * hc with hrdef
  omega

lemma shardStart_host_count (n hc : Int) (hn : 0 ≤ n) (hc1 : 1 ≤ hc) :
    shardStart n hc hc = n := by
  obtain ⟨hr0, hrlt⟩ := shard_r_bounds n hc hn hc1
  simp only [shardStart]
  set t := Int.fdiv n hc * hc with htdef
  omega

/-- Each range has length `n // hc` or `n // hc + 1`. -/
lemma shard_length (n hc h : Int) (hn : 0 ≤ n) (hc1 : 1 ≤ hc) (h0 : 0 ≤ h) :
    shardEnd n hc h - shardStart n hc h = Int.fdiv n hc ∨
    shardEnd n hc h - shardStart n hc h = Int.fdiv n hc + 1 := by
  obtain ⟨hr0, hrlt⟩ := shard_r_bounds n hc hn hc1
  simp only [shardEnd, shardStart]
  have hexp : Int.fdiv n hc * (h + 1) = Int.fdiv n hc * h + Int.fdiv n hc := by
    ring
  rw [hexp]
  set t := Int.fdiv n hc * h with htdef
  set q := Int.fdiv n hc with hqdef
  set r := n - q * hc with hrdef
  omega

/-- Every index below `shardStart n hc k` (for a natural `k`) lies in the
range of some host `h < k`. -/
lemma exists_host_of_lt (n hc : Int) (hn : 0 ≤ n) (hc1 : 1 ≤ hc) :
    ∀ (k : Nat) (x : Int), 0 ≤ x → x < shardStart n hc (k : Int) →
      ∃ h : Nat, h < k ∧ shardStart n hc (h : Int) ≤ x ∧
        x < shardStart n hc ((h : Int) + 1) := by
  intro k
  induction k with
  | zero =>
      intro x hx0 hxlt
      rw [Nat.cast_zero, shardStart_zero n hc hn hc1] at hxlt
      omega
  | succ m ih =>
      intro x hx0 hxlt
      by_cases hS : shardStart n hc (m : Int) ≤ x
      · refine ⟨m, Nat.lt_succ_self m, hS, ?_⟩
        have hcast : ((m + 1 : Nat) : Int) = (m : Int) + 1 := by push_cast; ring
        rwa [hcast] at hxlt
      · obtain ⟨h, hhk, hle, hlt'⟩ := ih x hx0 (by omega)
        exact ⟨h, by omega, hle, hlt'⟩

/-- **C1.** For every `num_examples ≥ 0` and `host_count ≥ 1`, with
`drop_remainder = false`, `get_read_instruction_for_host` returns for each
valid `host_id` the range with `start = per_host * host_id + min host_id r`
and `end = per_host * (host_id + 1) + min (host_id + 1) r` where
`per_host = num_examples // host_count` and
`r = num_examples - per_host * host_count`; these ranges have length
`per_host` or `per_host + 1`, their union is exactly `[0, num_examples)`,
and they are pairwise disjoint. -/
theorem shard_no_drop_partitions (s : String) (n hc : Int)
    (hn : 0 ≤ n) (hc1 : 1 ≤ hc) :
    (∀ h : Int, 0 ≤ h → h < hc →
      get_read_instruction_for_host s n h hc false =
        .ok ⟨s, shardStart n hc h, shardEnd n hc h, "abs"⟩ ∧
      shardStart n hc h =
        Int.fdiv n hc * h + min h (n - Int.fdiv n hc * hc) ∧
      shardEnd n hc h =
        Int.fdiv n hc * (h + 1) + min (h + 1) (n - Int.fdiv n hc * hc) ∧
      (shardEnd n hc h - shardStart n hc h = Int.fdiv n hc ∨
       shardEnd n hc h - shardStart n hc h = Int.fdiv n hc + 1)) ∧
    (∀ x : Int,
      (∃ h : Int, 0 ≤ h ∧ h < hc ∧
        shardStart n hc h ≤ x ∧ x < shardEnd n hc h) ↔ 0 ≤ x ∧ x < n) ∧
    (∀ h₁ h₂ : Int, 0 ≤ h₁ → h₁ < hc → 0 ≤ h₂ → h₂ < hc → h₁ ≠ h₂ →
      ∀ x : Int,
        ¬(shardStart n hc h₁ ≤ x ∧ x < shardEnd n hc h₁ ∧
          shardStart n hc h₂ ≤ x ∧ x < shardEnd n hc h₂)) := by
  refine ⟨?_, ?_, ?_⟩
  · intro h h0 hlt
    exact ⟨get_read_no_drop_eq s n hc h hn h0 hlt, rfl, rfl,
      shard_length n hc h hn hc1 h0⟩
  · intro x
    constructor
    · rintro ⟨h, h0, hlt, hle, hlt'⟩
      have hstart0 : shardStart n hc 0 ≤ shardStart n hc h :=
        shardStart_mono n hc hn hc1 h0
      rw [shardStart_zero n hc hn hc1] at hstart0
      have hendn : shardStart n hc (h + 1) ≤ shardStart n hc hc :=
        shardStart_mono n hc hn hc1 (by omega)
      rw [shardStart_host_count n hc hn hc1] at hendn
      simp only [shardEnd] at hlt'
      omega
    · rintro ⟨hx0, hxn⟩
      have hcast : ((hc.toNat : Nat) : Int) = hc := Int.toNat_of_nonneg (by omega)
      have hxlt : x < shardStart n hc (hc.toNat : Int) := by
        rw [hcast, shardStart_host_count n hc hn hc1]; exact hxn
      obtain ⟨h, hhk, hle, hlt'⟩ := exists_host_of_lt n hc hn hc1 hc.toNat x hx0 hxlt
      refine ⟨(h : Int), Nat.cast_nonneg h, ?_, hle, ?_⟩
      · have : (h : Int) < (hc.toNat : Int) := by exact_mod_cast hhk
        omega
      · simpa [shardEnd] using hlt'
  · intro h₁ h₂ h₁0 h₁lt h₂0 h₂lt hne x ⟨hs₁, he₁, hs₂, he₂⟩
    simp only [shardEnd] at he₁ he₂
    rcases lt_or_gt_of_ne hne with hlt | hlt
    · have : shardStart n hc (h₁ + 1) ≤ shardStart n hc h₂ :=
        shardStart_mono n hc hn hc1 (by omega)
      omega
    · have : shardStart n hc (h₂ + 1) ≤ shardStart n hc h₁ :=
        shardStart_mono n hc hn hc1 (by omega)
      omega

/-- Closed witness for C1 at `num_examples = 10`, `host_count = 3`. -/
theorem shard_no_drop_partitions_witness :
    get_read_instruction_for_host "train" 10 1 3 false =
      Except.ok ⟨"train", 4, 7, "abs"⟩ := by
  have h := (shard_no_drop_partitions "train" 10 3 (by norm_num) (by norm_num)).1
    1 (by norm_num) (by norm_num)
  rw [h.1]; decide

/-- **C2.** For every `num_examples ≥ 0` and `host_count ≥ 1`, with
`drop_remainder = true`, `get_read_instruction_for_host` returns for each
valid `host_id` the unmodified base range
`[per_host * host_id, per_host * (host_id + 1))` of length exactly
`per_host = num_examples // host_count`; the union of these ranges is
exactly `[0, host_count * per_host)`, and the trailing remainder indices
`[host_count * per_host, num_examples)` belong to no host's range. -/
theorem shard_drop_uniform (s : String) (n hc : Int)
    (hn : 0 ≤ n) (hc1 : 1 ≤ hc) :
    (∀ h : Int, 0 ≤ h → h < hc →
      get_read_instruction_for_host s n h hc true =
        .ok ⟨s, Int.fdiv n hc * h, Int.fdiv n hc * (h + 1), "abs"⟩ ∧
      Int.fdiv n hc * (h + 1) - Int.fdiv n hc * h = Int.fdiv n hc) ∧
    (∀ x : Int,
      (∃ h : Int, 0 ≤ h ∧ h < hc ∧
        Int.fdiv n hc * h ≤ x ∧ x < Int.fdiv n hc * (h + 1)) ↔
      0 ≤ x ∧ x < hc * Int.fdiv n hc) ∧
    (∀ x : Int, hc * Int.fdiv n hc ≤ x → x < n →
      ¬∃ h : Int, 0 ≤ h ∧ h < hc ∧
        Int.fdiv n hc * h ≤ x ∧ x < Int.fdiv n hc * (h + 1)) := by
  have hq0 : 0 ≤ Int.fdiv n hc := Int.fdiv_nonneg hn (by omega)
  have hunion : ∀ x : Int,
      (∃ h : Int, 0 ≤ h ∧ h < hc ∧
        Int.fdiv n hc * h ≤ x ∧ x < Int.fdiv n hc * (h + 1)) ↔
      0 ≤ x ∧ x < hc * Int.fdiv n hc := by
    intro x
    set q := Int.fdiv n hc with hqdef
    constructor
    · rintro ⟨h, h0, hlt, hle, hlt'⟩
      have hlow : 0 ≤ q * h := mul_nonneg hq0 h0
      have hup : q * (h + 1) ≤ q * hc := mul_le_mul_of_nonneg_left (by omega) hq0
      have hcomm : q * hc = hc * q := mul_comm q hc
      omega
    · rintro ⟨hx0, hxlt⟩
      rcases eq_or_lt_of_le hq0 with hq | hq
      · exfalso; rw [← hq] at hxlt; omega
      · refine ⟨x / q, Int.ediv_nonneg hx0 (by omega), ?_, ?_, ?_⟩
        · have hmod : x % q = x - q * (x / q) := Int.emod_def x q
          have hdiv : q * (x / q) ≤ x := by
            have := Int.emod_nonneg x (show q ≠ 0 by omega)
            omega
          have : q * (x / q) < q * hc := by
            calc q * (x / q) ≤ x := hdiv
            _ < hc * q := hxlt
            _ = q * hc := mul_comm hc q
          exact lt_of_mul_lt_mul_left this (by omega)
        · have := Int.emod_nonneg x (show q ≠ 0 by omega)
          have hmod : x % q = x - q * (x / q) := Int.emod_def x q
          omega
        · have hmodlt : x % q < q := Int.emod_lt_of_pos x hq
          have hmod : x % q = x - q * (x / q) := Int.emod_def x q
          have : q * (x / q + 1) = q * (x / q) + q := by ring
          omega
  refine ⟨?_, hunion, ?_⟩
  · intro h h0 hlt
    refine ⟨get_read_drop_eq s n hc h hn h0 hlt, by ring⟩
  · intro x hge _hlt hex
    have := (hunion x).mp hex
    omega

/-- Closed witness for C2 at `num_examples = 10`, `host_count = 3`:
host 2 gets `[6, 9)` and index 9 is in no host's range. -/
theorem shard_drop_uniform_witness :
    get_read_instruction_for_host "train" 10 2 3 true =
      Except.ok ⟨"train", 6, 9, "abs"⟩ ∧
    ¬∃ h : Int, 0 ≤ h ∧ h < 3 ∧
      Int.fdiv 10 3 * h ≤ 9 ∧ (9 : Int) < Int.fdiv 10 3 * (h + 1) := by
  have h := shard_drop_uniform "train" 10 3 (by norm_num) (by norm_num)
  constructor
  · rw [(h.1 2 (by norm_num) (by norm_num)).1]; decide
  · exact h.2.2 9 (by decide) (by decide)

/-- **C3.** `get_read_instruction_for_host` fails with the invalid-topology
error exactly when `host_id < 0`, `host_id ≥ host_count`, or
`host_count < 1`, and returns normally (`.ok`) for all other inputs with
`num_examples ≥ 0`. -/
theorem shard_invalid_topology (s : String) (n hi hc : Int) (dr : Bool)
    (hn : 0 ≤ n) :
    (get_read_instruction_for_host s n hi hc dr =
        .error .invalidTopology ↔ (hi < 0 ∨ hi ≥ hc ∨ hc < 1)) ∧
    (¬(hi < 0 ∨ hi ≥ hc ∨ hc < 1) →
      ∃ ri, get_read_instruction_for_host s n hi hc dr = .ok ri) := by
  have hok : ¬(hi < 0 ∨ hi ≥ hc ∨ hc < 1) →
      ∃ ri, get_read_instruction_for_host s n hi hc dr = .ok ri := by
    intro hcond
    have h0 : 0 ≤ hi := by omega
    have hlt : hi < hc := by omega
    cases dr with
    | false => exact ⟨_, get_read_no_drop_eq s n hc hi hn h0 hlt⟩
    | true => exact ⟨_, get_read_drop_eq s n hc hi hn h0 hlt⟩
  refine ⟨⟨?_, ?_⟩, hok⟩
  · intro herr
    by_contra hcond
    obtain ⟨ri, hri⟩ := hok hcond
    rw [hri] at herr
    exact Except.noConfusion herr
  · intro hcond
    simp only [get_read_instruction_for_host]
    rw [if_pos hcond]

/-- Closed witness for C3: the three boundary cases from the spec raise the
invalid-topology error, and a valid topology returns `.ok`. -/
theorem shard_invalid_topology_witness :
    get_read_instruction_for_host "train" 10 3 3 true =
      Except.error .invalidTopology ∧
    get_read_instruction_for_host "train" 10 (-1) 3 true =
      Except.error .invalidTopology ∧
    get_read_instruction_for_host "train" 10 0 0 true =
      Except.error .invalidTopology ∧
    ∃ ri, get_read_instruction_for_host "train" 10 0 3 true = Except.ok ri := by
  refine ⟨?_, ?_, ?_, ?_⟩
  · exact (shard_invalid_topology "train" 10 3 3 true (by norm_num)).1.mpr
      (by norm_num)
  · exact (shard_invalid_topology "train" 10 (-1) 3 true (by norm_num)).1.mpr
      (by norm_num)
  · exact (shard_invalid_topology "train" 10 0 0 true (by norm_num)).1.mpr
      (by norm_num)
  · exact (shard_invalid_topology "train" 10 0 3 true (by norm_num)).2
      (by norm_num)

/-- **C8.** For `num_examples ≥ 0`, `host_count ≥ 1` and a valid `host_id`,
the remainder `r = num_examples - (num_examples // host_count) * host_count`
satisfies `0 ≤ r < host_count`, so neither of the two `assert` statements
inside `get_read_instruction_for_host` can fail. -/
theorem shard_remainder_invariant (s : String) (n hi hc : Int) (dr : Bool)
    (hn : 0 ≤ n) (h0 : 0 ≤ hi) (hlt : hi < hc) :
    0 ≤ n - Int.fdiv n hc * hc ∧ n - Int.fdiv n hc * hc < hc ∧
    get_read_instruction_for_host s n hi hc dr ≠
      Except.error ShardError.assertionFailed := by
  have hc1 : 1 ≤ hc := by omega
  obtain ⟨hr0, hrlt⟩ := shard_r_bounds n hc hn hc1
  refine ⟨hr0, hrlt, ?_⟩
  cases dr with
  | false =>
      rw [get_read_no_drop_eq s n hc hi hn h0 hlt]
      exact fun hcontra => Except.noConfusion hcontra
  | true =>
      rw [get_read_drop_eq s n hc hi hn h0 hlt]
      exact fun hcontra => Except.noConfusion hcontra

/-- Closed witness for C8 at `num_examples = 10`, `host_count = 3`,
`host_id = 1`. -/
theorem shard_remainder_invariant_witness :
    0 ≤ (10 : Int) - Int.fdiv 10 3 * 3 ∧ (10 : Int) - Int.fdiv 10 3 * 3 < 3 ∧
    get_read_instruction_for_host "train" 10 1 3 false ≠
      Except.error ShardError.assertionFailed :=
  shard_remainder_invariant "train" 10 1 3 false (by norm_num) (by norm_num)
    (by norm_num)

/-- Counterexample to **C4** as stated: `host_id`/`host_count` are *not*
always explicit — the Python source defaults them to the ambient values
`jax.host_id()` / `jax.host_count()` when the caller passes `None`
(lines 107-110), so two calls with identical arguments (`host_id=None`)
return different ranges under different process-global states. -/
theorem shard_ambient_dependence :
    get_read_instruction_for_host_opt "train" 10 none (some 2) true 0 2 =
      Except.ok ⟨"train", 0, 5, "abs"⟩ ∧
    get_read_instruction_for_host_opt "train" 10 none (some 2) true 1 2 =
      Except.ok ⟨"train", 5, 10, "abs"⟩ ∧
    get_read_instruction_for_host_opt "train" 10 none (some 2) true 0 2 ≠
      get_read_instruction_for_host_opt "train" 10 none (some 2) true 1 2 := by
  refine ⟨by decide, by decide, by decide⟩

/-- **C4 (amended).** When `host_id` and `host_count` are passed explicitly
(not `None`), the output of `get_read_instruction_for_host` depends only on
`(split, num_examples, host_id, host_count, drop_remainder)` and not on the
ambient `jax` process-global state; it equals the pure core function. -/
theorem shard_explicit_args_pure (s : String) (n hi hc : Int) (dr : Bool)
    (ambientId₁ ambientCount₁ ambientId₂ ambientCount₂ : Int) :
    get_read_instruction_for_host_opt s n (some hi) (some hc) dr
      ambientId₁ ambientCount₁ =
    get_read_instruction_for_host_opt s n (some hi) (some hc) dr
      ambientId₂ ambientCount₂ ∧
    get_read_instruction_for_host_opt s n (some hi) (some hc) dr
      ambientId₁ ambientCount₁ =
    get_read_instruction_for_host s n hi hc dr :=
  ⟨rfl, rfl⟩

/-- Errors raised by `create_dataset`: `missingSeed` models the
`ValueError("Please set 'rng' when shuffling.")` (line 224) and
`paddingUnderflow` models the failure of `assert padding >= 0`
(lines 270-272). -/
inductive CreateDatasetError where
  | missingSeed
  | paddingUnderflow
deriving DecidableEq, Repr

/-- One record of the assembled dataset: the payload plus the optional
"mask" feature.  `mask = none` models a record without a "mask" key (no
padding requested); `some true` / `some false` model the boolean "mask"
feature added by the padding block for natural and filler records. -/
structure Element (ρ : Type) where
  mask : Option Bool
  payload : ρ
deriving DecidableEq, Repr

/-- `ds.repeat(num_epochs)` for a finite number of epochs. -/
def repeatEpochs {ρ : Type} (num_epochs : Nat) (l : List ρ) : List ρ :=
  (List.replicate num_epochs l).flatten

/-- Fuel-driven worker for `batchChunks`; the fuel is an upper bound on the
number of chunks (the input length suffices). -/
def batchChunksFuel {β : Type} (batch_size : Nat) :
    Nat → List β → List (List β)
  | 0, _ => []
  | fuel + 1, l =>
      if batch_size = 0 ∨ l.length < batch_size then []
      else l.take batch_size ::
        batchChunksFuel batch_size fuel (l.drop batch_size)

/-- `ds.batch(batch_size, drop_remainder=True)`: groups consecutive
elements into chunks of exactly `batch_size`, discarding a final partial
chunk. -/
def batchChunks {β : Type} (batch_size : Nat) (l : List β) : List (List β) :=
  batchChunksFuel batch_size l.length l

/-- `np.prod` over the `batch_dims` sequence (`np.prod([]) = 1`). -/
def listProd (dims : List Nat) : Nat := dims.foldl (· * ·) 1

/-- `if filter_fn is not None: ds = ds.filter(filter_fn)` (lines 243-244). -/
def filterStage {ρ : Type} (filter_fn : Option (ρ → Bool))
    (ds : List ρ) : List ρ :=
  match filter_fn with
  | some f => ds.filter f
  | none => ds

/-- `if shuffle: ds = ds.shuffle(shuffle_buffer_size, seed=rngs.pop()[0])`
(lines 249-250): the TF shuffle itself is the abstract `shuffleImpl`,
seeded with the second of the three split rngs.  The `rng = none` inner
case is unreachable inside `create_dataset` because of the missing-seed
check. -/
def shuffleStage {ρ σ : Type} (shuffle : Bool) (rng : Option σ)
    (split3 : σ → σ × σ × σ) (shuffleImpl : σ → List ρ → List ρ)
    (ds : List ρ) : List ρ :=
  if shuffle then
    match rng with
    | some r => shuffleImpl (split3 r).2.1 ds
    | none => ds
  else ds

/-- `if preprocess_fn is not None: ...` (lines 252-256): with an rng
available the dataset is mapped by `_preprocess_with_per_example_rng`
(the abstract `preprocessWithRng` at this record type, seeded with the
first of the three split rngs), otherwise by a plain `ds.map`. -/
def preprocessStage {ρ σ : Type} (rng : Option σ) (split3 : σ → σ × σ × σ)
    (preprocess_fn : Option (ρ → ρ))
    (preprocessWithRng : σ → (ρ → ρ) → List ρ → List ρ)
    (ds : List ρ) : List ρ :=
  match preprocess_fn with
  | some pf =>
      match rng with
      | some r => preprocessWithRng (split3 r).1 pf ds
      | none => ds.map pf
  | none => ds

/-- `if pad_up_to_batches: ...` (lines 258-273).  Python truthiness: both
`None` and `0` skip the whole block.  Inside the block every natural record
gains `mask=True`, `padding = pad_up_to_batches * np.prod(batch_dims) -
int(ds.cardinality())` is computed on the masked stream, `assert padding
>= 0` fails as `paddingUnderflow`, and `padding` copies of the zero filler
record with `mask=False` are appended. -/
def padStage {ρ : Type} (zeroRecord : ρ) (batch_dims : List Nat)
    (pad_up_to_batches : Option Nat) (ds : List ρ) :
    Except CreateDatasetError (List (Element ρ)) :=
  if pad_up_to_batches.getD 0 ≠ 0 then
    if ((pad_up_to_batches.getD 0 : Int) * (listProd batch_dims : Int) -
        ((ds.map (fun record => Element.mk (some true) record)).length : Int))
        < 0 then
      .error .paddingUnderflow
    else
      .ok (ds.map (fun record => Element.mk (some true) record) ++
        List.replicate
          ((pad_up_to_batches.getD 0 : Int) * (listProd batch_dims : Int) -
            ((ds.map (fun record =>
              Element.mk (some true) record)).length : Int)).toNat
          (Element.mk (some false) zeroRecord))
  else .ok (ds.map (fun record => Element.mk none record))

/-- Embedding of `create_dataset` (deterministic_data.py, lines 222-279) up
to, but not including, the final batching loop (handled by
`create_dataset_batched1` for a single batch dimension) and `prefetch`
(a no-op on the element sequence).  Each `ds = stage(ds)` statement of the
Python body is one of the stage functions above, applied in source order.

External collaborators are abstract parameters, since their code is not
part of this repository: `split3` models `jax.random.split(rng, 3)` as the
triple `(rngs[0], rngs[1], rngs[2])` (the code pops `rngs[2]` for the file
shuffle inside `as_dataset`, `rngs[1]` for `ds.shuffle` and `rngs[0]` for
preprocessing); `shuffleImpl` models `ds.shuffle(shuffle_buffer_size,
seed=...)`; `preprocessWithRng` models `_preprocess_with_per_example_rng`
at the abstract record type (embedded concretely below for the per-example
seed claims); `source` models the record stream produced by
`dataset_builder.as_dataset(...)`.  `cache` and the dataset options are
performance hints with no effect on the element sequence and are omitted;
`num_epochs` is modelled for finitely many epochs.  `zeroRecord` models
the all-zeros filler record `{name: tf.zeros(spec.shape, spec.dtype)}`. -/
def create_dataset {ρ σ : Type} (source : List ρ) (zeroRecord : ρ)
    (batch_dims : List Nat) (rng : Option σ)
    (split3 : σ → σ × σ × σ)
    (filter_fn : Option (ρ → Bool))
    (preprocess_fn : Option (ρ → ρ))
    (preprocessWithRng : σ → (ρ → ρ) → List ρ → List ρ)
    (num_epochs : Nat) (shuffle : Bool)
    (shuffleImpl : σ → List ρ → List ρ)
    (pad_up_to_batches : Option Nat) :
    Except CreateDatasetError (List (Element ρ)) :=
  if rng.isNone ∧ shuffle then .error .missingSeed
  else
    padStage zeroRecord batch_dims pad_up_to_batches
      (preprocessStage rng split3 preprocess_fn preprocessWithRng
        (shuffleStage shuffle rng split3 shuffleImpl
          (repeatEpochs num_epochs (filterStage filter_fn source))))

/-- `create_dataset` with a single batch dimension `batch_dims = [b]`,
including the final loop `for batch_size in reversed(batch_dims):
ds = ds.batch(batch_size, drop_remainder=True)` (one iteration). -/
def create_dataset_batched1 {ρ σ : Type} (source : List ρ) (zeroRecord : ρ)
    (batch_dim : Nat) (rng : Option σ)
    (split3 : σ → σ × σ × σ)
    (filter_fn : Option (ρ → Bool))
    (preprocess_fn : Option (ρ → ρ))
    (preprocessWithRng : σ → (ρ → ρ) → List ρ → List ρ)
    (num_epochs : Nat) (shuffle : Bool)
    (shuffleImpl : σ → List ρ → List ρ)
    (pad_up_to_batches : Option Nat) :
    Except CreateDatasetError (List (List (Element ρ))) :=
  (create_dataset source zeroRecord [batch_dim] rng split3 filter_fn
    preprocess_fn preprocessWithRng num_epochs shuffle shuffleImpl
    pad_up_to_batches).map (batchChunks batch_dim)

lemma repeatEpochs_one {ρ : Type} (l : List ρ) : repeatEpochs 1 l = l := by
  simp [repeatEpochs]

/-- The padding block can fail only with the padding-underflow error, never
with the missing-seed error. -/
lemma padStage_ne_missingSeed {ρ : Type} (zeroRecord : ρ)
    (batch_dims : List Nat) (pad : Option Nat) (ds : List ρ) :
    padStage zeroRecord batch_dims pad ds ≠
      Except.error CreateDatasetError.missingSeed := by
  unfold padStage
  split_ifs <;> simp

/-- With `pad_up_to_batches = None` the padding block is skipped and no
"mask" feature is added. -/
lemma padStage_none {ρ : Type} (zeroRecord : ρ) (batch_dims : List Nat)
    (ds : List ρ) :
    padStage zeroRecord batch_dims none ds =
      .ok (ds.map (fun record => Element.mk none record)) := by
  simp [padStage]

/-- **C7.** `create_dataset` fails with the missing-seed error exactly when
shuffling is requested without an rng (`shuffle = true` and `rng = none`) —
for every source and every other parameter, so the failure is a property of
the construction call itself, before any element is produced — and with
`shuffle = false`, `rng = none` and no padding, construction succeeds. -/
theorem create_dataset_missing_seed {ρ σ : Type} (source : List ρ)
    (zeroRecord : ρ) (batch_dims : List Nat) (rng : Option σ)
    (split3 : σ → σ × σ × σ) (filter_fn : Option (ρ → Bool))
    (preprocess_fn : Option (ρ → ρ))
    (preprocessWithRng : σ → (ρ → ρ) → List ρ → List ρ)
    (num_epochs : Nat) (shuffle : Bool)
    (shuffleImpl : σ → List ρ → List ρ)
    (pad_up_to_batches : Option Nat) :
    (create_dataset source zeroRecord batch_dims rng split3 filter_fn
        preprocess_fn preprocessWithRng num_epochs shuffle shuffleImpl
        pad_up_to_batches = .error .missingSeed ↔
      rng = none ∧ shuffle = true) ∧
    (rng = none → shuffle = false →
      ∃ elements,
        create_dataset source zeroRecord batch_dims rng split3 filter_fn
          preprocess_fn preprocessWithRng num_epochs false shuffleImpl
          none = .ok elements) := by
  constructor
  · by_cases hcond : rng.isNone ∧ shuffle
    · constructor
      · intro _
        obtain ⟨h1, h2⟩ := hcond
        exact ⟨Option.isNone_iff_eq_none.mp h1, h2⟩
      · intro _
        simp only [create_dataset, if_pos hcond]
    · rw [create_dataset.eq_def, if_neg hcond]
      constructor
      · intro herr
        exact absurd herr (padStage_ne_missingSeed _ _ _ _)
      · rintro ⟨h1, h2⟩
        exact absurd ⟨Option.isNone_iff_eq_none.mpr h1, h2⟩ hcond
  · intro hrng _
    rw [create_dataset.eq_def,
      if_neg (by simp : ¬((rng.isNone ∧ (false : Bool)) : Prop))]
    exact ⟨_, padStage_none _ _ _⟩

/-- Closed witness for C7: with `shuffle = true` and `rng = None`
construction fails with the missing-seed error; with `shuffle = false` and
`rng = None` it succeeds. -/
theorem create_dataset_missing_seed_witness :
    create_dataset (List.range 10) 0 [4] (none : Option Unit)
      (fun _ => ((), (), ())) none none (fun _ _ l => l) 1 true
      (fun _ l => l) none = .error .missingSeed ∧
    ∃ elements,
      create_dataset (List.range 10) 0 [4] (none : Option Unit)
        (fun _ => ((), (), ())) none none (fun _ _ l => l) 1 false
        (fun _ l => l) none = .ok elements := by
  have h := create_dataset_missing_seed (List.range 10) 0 [4]
    (none : Option Unit) (fun _ => ((), (), ())) none none
    (fun _ _ l => l) 1 true (fun _ l => l) none
  have h' := create_dataset_missing_seed (List.range 10) 0 [4]
    (none : Option Unit) (fun _ => ((), (), ())) none none
    (fun _ _ l => l) 1 false (fun _ l => l) none
  exact ⟨h.1.mpr ⟨rfl, rfl⟩, h'.2 rfl rfl⟩

/-- With no filter, a single epoch, no shuffling and no preprocessing, the
stages before the padding block leave the source stream unchanged. -/
lemma stages_id {ρ σ : Type} (rng : Option σ) (split3 : σ → σ × σ × σ)
    (preprocessWithRng : σ → (ρ → ρ) → List ρ → List ρ)
    (shuffleImpl : σ → List ρ → List ρ) (source : List ρ) :
    preprocessStage rng split3 none preprocessWithRng
      (shuffleStage false rng split3 shuffleImpl
        (repeatEpochs 1 (filterStage none source))) = source := by
  simp [preprocessStage, shuffleStage, filterStage, repeatEpochs_one]

/-- When `pad_up_to_batches = p ≠ 0` and the padding count is negative, the
padding block fails with the underflow error. -/
lemma padStage_some_underflow {ρ : Type} (zeroRecord : ρ)
    (batch_dims : List Nat) (p : Nat) (ds : List ρ) (hp : p ≠ 0)
    (hneed : (p : Int) * (listProd batch_dims : Int) - (ds.length : Int) < 0) :
    padStage zeroRecord batch_dims (some p) ds =
      .error .paddingUnderflow := by
  rw [padStage.eq_def]
  simp only [Option.getD_some, List.length_map]
  rw [if_pos hp, if_pos hneed]

/-- When `pad_up_to_batches = p ≠ 0` and the padding count is non-negative,
the padding block marks every natural record `mask=True` and appends
exactly `padding` zero filler records with `mask=False`. -/
lemma padStage_some_ok {ρ : Type} (zeroRecord : ρ)
    (batch_dims : List Nat) (p : Nat) (ds : List ρ) (hp : p ≠ 0)
    (hneed : 0 ≤ (p : Int) * (listProd batch_dims : Int) - (ds.length : Int)) :
    padStage zeroRecord batch_dims (some p) ds =
      .ok (ds.map (fun record => Element.mk (some true) record) ++
        List.replicate
          ((p : Int) * (listProd batch_dims : Int) - (ds.length : Int)).toNat
          (Element.mk (some false) zeroRecord)) := by
  rw [padStage.eq_def]
  simp only [Option.getD_some, List.length_map]
  rw [if_pos hp, if_neg (by omega)]

/-- **C6.** When `pad_up_to_batches = p` is set (non-zero) and
`needed = p * prod(batch_dims) - observed_count` is negative — the source
yields more examples than the padded capacity — `create_dataset` fails
with the padding-underflow error; the error is the value of the
construction call itself (the `assert` runs in the function body, not
during iteration). -/
theorem create_dataset_padding_underflow {ρ σ : Type} (source : List ρ)
    (zeroRecord : ρ) (batch_dims : List Nat) (rng : Option σ)
    (split3 : σ → σ × σ × σ)
    (preprocessWithRng : σ → (ρ → ρ) → List ρ → List ρ)
    (shuffleImpl : σ → List ρ → List ρ) (p : Nat) (hp : p ≠ 0)
    (hneed : (p : Int) * (listProd batch_dims : Int) -
      (source.length : Int) < 0) :
    create_dataset source zeroRecord batch_dims rng split3 none none
      preprocessWithRng 1 false shuffleImpl (some p) =
      .error .paddingUnderflow := by
  rw [create_dataset.eq_def,
    if_neg (by simp : ¬((rng.isNone ∧ (false : Bool)) : Prop)),
    stages_id]
  exact padStage_some_underflow zeroRecord batch_dims p source hp hneed

/-- Closed witness for C6: ten examples cannot be padded down to
`pad_up_to_batches = 2` batches of 4 (capacity 8 < 10). -/
theorem create_dataset_padding_underflow_witness :
    create_dataset (List.range 10) 0 [4] (none : Option Unit)
      (fun _ => ((), (), ())) none none (fun _ _ l => l) 1 false
      (fun _ l => l) (some 2) = .error .paddingUnderflow :=
  create_dataset_padding_underflow (List.range 10) 0 [4] none
    (fun _ => ((), (), ())) (fun _ _ l => l) (fun _ l => l) 2
    (by decide) (by decide)

/-- **C5.** With `pad_up_to_batches = p` set (non-zero) and
`needed = p * prod(batch_dims) - observed_count ≥ 0`, `create_dataset`
marks every naturally-sourced record `mask=True` and appends exactly
`needed` synthetic zero-valued records with `mask=False`; concretely, with
10 examples, `batch_dims=[4]` and `pad_up_to_batches=3`, it appends 2
`mask=False` records and produces 3 batches of size 4 whose first two
batches are entirely `mask=True` and whose last batch is 2 `mask=True`
followed by 2 `mask=False`. -/
theorem create_dataset_padding_appends {ρ σ : Type} (source : List ρ)
    (zeroRecord : ρ) (batch_dims : List Nat) (rng : Option σ)
    (split3 : σ → σ × σ × σ)
    (preprocessWithRng : σ → (ρ → ρ) → List ρ → List ρ)
    (shuffleImpl : σ → List ρ → List ρ) (p : Nat) (hp : p ≠ 0)
    (hneed : 0 ≤ (p : Int) * (listProd batch_dims : Int) -
      (source.length : Int)) :
    create_dataset source zeroRecord batch_dims rng split3 none none
        preprocessWithRng 1 false shuffleImpl (some p) =
      .ok (source.map (fun record => Element.mk (some true) record) ++
        List.replicate
          ((p : Int) * (listProd batch_dims : Int) -
            (source.length : Int)).toNat
          (Element.mk (some false) zeroRecord)) ∧
    create_dataset_batched1 (List.range 10) 0 4 (none : Option Unit)
        (fun _ => ((), (), ())) none none (fun _ _ l => l) 1 false
        (fun _ l => l) (some 3) =
      .ok [[⟨some true, 0⟩, ⟨some true, 1⟩, ⟨some true, 2⟩, ⟨some true, 3⟩],
           [⟨some true, 4⟩, ⟨some true, 5⟩, ⟨some true, 6⟩, ⟨some true, 7⟩],
           [⟨some true, 8⟩, ⟨some true, 9⟩,
            ⟨some false, 0⟩, ⟨some false, 0⟩]] := by
  constructor
  · rw [create_dataset.eq_def,
      if_neg (by simp : ¬((rng.isNone ∧ (false : Bool)) : Prop)),
      stages_id]
    exact padStage_some_ok zeroRecord batch_dims p source hp hneed
  · decide

/-- Closed witness for C5 at 10 examples, `batch_dims=[4]`,
`pad_up_to_batches=3`: exactly 2 filler records are appended. -/
theorem create_dataset_padding_appends_witness :
    create_dataset (List.range 10) 0 [4] (none : Option Unit)
      (fun _ => ((), (), ())) none none (fun _ _ l => l) 1 false
      (fun _ l => l) (some 3) =
      .ok [⟨some true, 0⟩, ⟨some true, 1⟩, ⟨some true, 2⟩, ⟨some true, 3⟩,
           ⟨some true, 4⟩, ⟨some true, 5⟩, ⟨some true, 6⟩, ⟨some true, 7⟩,
           ⟨some true, 8⟩, ⟨some true, 9⟩,
           ⟨some false, 0⟩, ⟨some false, 0⟩] := by
  rw [(create_dataset_padding_appends (List.range 10) 0 [4]
    (none : Option Unit) (fun _ => ((), (), ())) (fun _ _ l => l)
    (fun _ l => l) 3 (by decide) (by decide)).1]
  decide

/-- **C10.** `pad_up_to_batches = 0` is falsy in Python
(`if pad_up_to_batches:`), so padding is disabled exactly as with `None`:
no underflow check, no filler records, and no "mask" feature on any
record. -/
theorem create_dataset_pad_zero {ρ σ : Type} (source : List ρ)
    (zeroRecord : ρ) (batch_dims : List Nat) (rng : Option σ)
    (split3 : σ → σ × σ × σ) (filter_fn : Option (ρ → Bool))
    (preprocess_fn : Option (ρ → ρ))
    (preprocessWithRng : σ → (ρ → ρ) → List ρ → List ρ)
    (num_epochs : Nat) (shuffle : Bool)
    (shuffleImpl : σ → List ρ → List ρ) :
    create_dataset source zeroRecord batch_dims rng split3 filter_fn
        preprocess_fn preprocessWithRng num_epochs shuffle shuffleImpl
        (some 0) =
      create_dataset source zeroRecord batch_dims rng split3 filter_fn
        preprocess_fn preprocessWithRng num_epochs shuffle shuffleImpl
        none ∧
    ∀ elements,
      create_dataset source zeroRecord batch_dims rng split3 filter_fn
        preprocess_fn preprocessWithRng num_epochs shuffle shuffleImpl
        (some 0) = .ok elements →
      ∀ e ∈ elements, e.mask = none := by
  constructor
  · rfl
  · intro elements helem e he
    rw [create_dataset.eq_def] at helem
    by_cases hcond : rng.isNone ∧ shuffle
    · rw [if_pos hcond] at helem
      exact absurd helem (by simp)
    · rw [if_neg hcond] at helem
      rw [show padStage zeroRecord batch_dims (some 0)
          (preprocessStage rng split3 preprocess_fn preprocessWithRng
            (shuffleStage shuffle rng split3 shuffleImpl
              (repeatEpochs num_epochs (filterStage filter_fn source)))) =
          _ from padStage_none zeroRecord batch_dims _] at helem
      obtain rfl := Except.ok.inj helem
      obtain ⟨x, _, rfl⟩ := List.mem_map.mp he
      rfl

/-- Closed witness for C10 at 3 examples: `pad_up_to_batches = 0` behaves
exactly like `None`, and the resulting records carry no mask. -/
theorem create_dataset_pad_zero_witness :
    (create_dataset (List.range 3) 0 [4] (none : Option Unit)
        (fun _ => ((), (), ())) none none (fun _ _ l => l) 1 false
        (fun _ l => l) (some 0) =
      create_dataset (List.range 3) 0 [4] (none : Option Unit)
        (fun _ => ((), (), ())) none none (fun _ _ l => l) 1 false
        (fun _ l => l) none) ∧
    (⟨none, 1⟩ : Element Nat).mask = none := by
  have h := create_dataset_pad_zero (List.range 3) 0 [4]
    (none : Option Unit) (fun _ => ((), (), ())) none none
    (fun _ _ l => l) 1 false (fun _ l => l)
  exact ⟨h.1, h.2 [⟨none, 0⟩, ⟨none, 1⟩, ⟨none, 2⟩] (by decide)
    ⟨none, 1⟩ (by decide)⟩

/-- A Python dict of features, as an ordered association list (keys are
unique in the streams built by the pipeline). -/
abbrev Features (V : Type) := List (String × V)

/-- Python dict assignment `d[k] = v`: overwrites the value in place when
the key exists, otherwise appends a new entry. -/
def dictSet {V : Type} (d : Features V) (k : String) (v : V) : Features V :=
  if d.any (fun kv => kv.1 == k) then
    d.map (fun kv => if kv.1 == k then (k, v) else kv)
  else d ++ [(k, v)]

/-- Python `del d[k]`: removes the entries with key `k`. -/
def dictDel {V : Type} (d : Features V) (k : String) : Features V :=
  d.filter (fun kv => kv.1 != k)

/-- `tf.cast(example_index, tf.int32)` (line 156): two's-complement
truncation of the int64 enumeration index to 32 bits. -/
def castInt32 (i : Int) : Int := (i + 2 ^ 31) % 2 ^ 32 - 2 ^ 31

/-- The closure `_fn(example_index, features)` inside
`_preprocess_with_per_example_rng` (lines 155-162): the enumeration index
is cast to int32, the "rng" feature is set to the stateless fold of the
(int64-cast) base rng with that index, the preprocessing function runs,
and a surviving "rng" key is deleted from the result.  `fold` abstracts
the external `tf.random.experimental.stateless_fold_in` and `rng64` the
already-cast `tf.cast(rng, tf.int64)`. -/
def perExampleFn {V : Type} (fold : V → Int → V) (rng64 : V)
    (preprocess_fn : Features V → Features V)
    (example_index : Int) (features : Features V) : Features V :=
  let processed := preprocess_fn
    (dictSet features "rng" (fold rng64 (castInt32 example_index)))
  if processed.any (fun kv => kv.1 == "rng") then dictDel processed "rng"
  else processed

/-- Embedding of `_preprocess_with_per_example_rng` (lines 136-164):
`ds.enumerate().map(_fn, ...)` (the parallelism hint does not change the
element sequence). -/
def preprocess_with_per_example_rng {V : Type} (fold : V → Int → V)
    (rng64 : V) (preprocess_fn : Features V → Features V)
    (ds : List (Features V)) : List (Features V) :=
  ds.enum.map (fun ie =>
    perExampleFn fold rng64 preprocess_fn (ie.1 : Int) ie.2)

/-- After `d[k] = v`, looking up `k` yields `v`. -/
lemma lookup_dictSet {V : Type} (d : Features V) (k : String) (v : V) :
    (dictSet d k v).lookup k = some v := by
  unfold dictSet
  split_ifs with hany
  · induction d with
    | nil => simp at hany
    | cons kv t ih =>
        obtain ⟨k₀, v₀⟩ := kv
        simp only [List.map_cons]
        by_cases hk : k₀ = k
        · subst hk
          simp [List.lookup_cons]
        · have ht : t.any (fun kv => kv.1 == k) := by
            simpa [List.any_cons, hk] using hany
          have hne : (k₀ == k) = false := by simpa using hk
          have hne' : (k == k₀) = false := by
            simpa using fun hcontra => hk hcontra.symm
          simp only [hne, Bool.false_eq_true, if_false, List.lookup_cons,
            hne']
          exact ih ht
  · induction d with
    | nil => simp
    | cons kv t ih =>
        obtain ⟨k₀, v₀⟩ := kv
        have hkv : ¬k₀ = k := fun hcontra =>
          hany (by simp [List.any_cons, hcontra])
        have ht : ¬t.any (fun kv => kv.1 == k) = true := fun hcontra =>
          hany (by simp [List.any_cons, hcontra])
        have hne' : (k == k₀) = false := by
          simpa using fun hcontra => hkv hcontra.symm
        simp only [List.cons_append, List.lookup_cons, hne']
        exact ih ht

/-- Counterexample to **C9** as stated: the code casts the int64
enumeration index to int32 before folding (line 156), so the enumeration
indices `0` and `2^32`, distinct as 64-bit integers, are folded with the
*same* index value — the per-example rngs they produce coincide for every
fold function, exhibited here with a concrete one. -/
theorem per_example_index_cast_collision :
    (0 : Int) ≠ 2 ^ 32 ∧ castInt32 (2 ^ 32) = castInt32 0 ∧
    perExampleFn (fun s i => 1000 * s + i) (7 : Int)
      (fun d => [("rng_out", (d.lookup "rng").getD 0)]) (2 ^ 32)
      [("x", 5)] =
    perExampleFn (fun s i => 1000 * s + i) (7 : Int)
      (fun d => [("rng_out", (d.lookup "rng").getD 0)]) 0
      [("x", 5)] := by
  refine ⟨by decide, by decide, by decide⟩

/-- **C9 (amended).** The per-example seed derivation folds the example's
enumeration index, cast from int64 to int32 (two's-complement truncation),
into the base preprocessing seed: the example at enumeration position `i`
receives the "rng" feature `fold rng64 (castInt32 i)` (observed here
through a preprocessing function that copies the injected "rng" value),
and two enumeration indices are folded with the same index value exactly
when they are congruent modulo `2^32`. -/
theorem per_example_rng_derivation {V : Type} (fold : V → Int → V)
    (rng64 : V) (v0 : V) (ds : List (Features V)) :
    preprocess_with_per_example_rng fold rng64
        (fun d => [("rng_out", (d.lookup "rng").getD v0)]) ds =
      (List.range ds.length).map
        (fun (i : Nat) =>
          [("rng_out", fold rng64 (castInt32 (i : Int)))]) ∧
    ∀ i j : Int, castInt32 i = castInt32 j ↔ i % 2 ^ 32 = j % 2 ^ 32 := by
  constructor
  · unfold preprocess_with_per_example_rng
    have hfn : ∀ (i : Nat) (features : Features V),
        perExampleFn fold rng64
          (fun d => [("rng_out", (d.lookup "rng").getD v0)])
          (i : Int) features =
        [("rng_out", fold rng64 (castInt32 (i : Int)))] := by
      intro i features
      simp only [perExampleFn]
      rw [lookup_dictSet]
      simp
    calc ds.enum.map (fun ie =>
            perExampleFn fold rng64
              (fun d => [("rng_out", (d.lookup "rng").getD v0)])
              (ie.1 : Int) ie.2)
        = ds.enum.map (fun ie =>
            [("rng_out", fold rng64 (castInt32 (ie.1 : Int)))]) :=
          List.map_congr_left (fun ie _ => hfn ie.1 ie.2)
      _ = (List.range ds.length).map
            (fun (i : Nat) =>
              [("rng_out", fold rng64 (castInt32 (i : Int)))]) := by
          rw [List.enum_eq_zip_range]
          rw [show (fun (ie : Nat × Features V) =>
              [("rng_out", fold rng64 (castInt32 (ie.1 : Int)))]) =
            (fun (i : Nat) =>
              [("rng_out", fold rng64 (castInt32 (i : Int)))]) ∘
              Prod.fst from rfl]
          rw [← List.map_map]
          rw [List.map_fst_zip _ _ (by simp)]
  · intro i j
    unfold castInt32
    have hM : (2 : Int) ^ 32 = 4294967296 := by norm_num
    have hH : (2 : Int) ^ 31 = 2147483648 := by norm_num
    rw [hM, hH]
    omega
